import Mathlib

/-!
Verification of the LightPool Python SDK core codec layer: a shallow
embedding of the identifier packer (`client.py`), the bincode-compatible
parameter serializers and event deserializers (`bincode.py`), the enum
discriminant tables (`types.py`), the address derivation (`crypto.py`),
and the transaction builder (`transaction.py`), together with proofs of
the specification's stated properties (golden vectors, injectivity,
idempotence, truncation behaviour).

Python byte strings are modelled as `List Nat` with every element a byte
value `< 256`; Python `str` values used as character sequences are
modelled as `String` (packer) or as lists of character codes (hex-string
parsing).  Fallible Python code (raising `ValueError`/`KeyError`/
`struct.error`) is modelled with `Option`/`Except`.
-/

namespace LightPool

/-- Little-endian byte expansion of `n` into exactly `width` bytes, the
layout produced by `struct.pack` with formats `<Q`/`<I`/`<H` when `n` is
in range. -/
def leBytes (width n : Nat) : List Nat :=
  match width with
  | 0 => []
  | w + 1 => n % 256 :: leBytes w (n / 256)

/-- `struct.pack` with a little-endian unsigned format of `width` bytes:
raises `struct.error` (modelled as `none`) when the value is out of
range, otherwise produces exactly `width` little-endian bytes. -/
def packLE (width n : Nat) : Option (List Nat) :=
  if n < 256 ^ width then some (leBytes width n) else none

/-- `struct.pack` format `<?`: one byte, `1` for `True`, `0` for `False`. -/
def boolByte (b : Bool) : List Nat :=
  if b then [1] else [0]

/-- `int.from_bytes(bs, 'little')`. -/
def leVal (bs : List Nat) : Nat :=
  match bs with
  | [] => 0
  | b :: rest => b + 256 * leVal rest

/-! ## IdentifierPacker (`client.py`, `_action_name_to_u64`)

The Python method maps a character to a base-32 digit (`'_'` ↦ 0,
`'1'..'5'` ↦ 1..5, `'a'..'z'` ↦ 6..31, anything else raises
`ValueError`), folds `result = result*32 + digit` over the characters,
and then multiplies by 32 once per remaining position until 12 digit
positions have been consumed.  Character comparisons use the code point
(`ord`): 95 = underscore, 49..53 = digits one to five, 97..122 =
lowercase letters. -/

def charDigit (c : Char) : Except String Nat :=
  if c.toNat = 95 then .ok 0
  else if 49 ≤ c.toNat ∧ c.toNat ≤ 53 then .ok (c.toNat - 49 + 1)
  else if 97 ≤ c.toNat ∧ c.toNat ≤ 122 then .ok (c.toNat - 97 + 6)
  else .error "Invalid character in action name"

/-- The fold `result = result * 32 + digit(c)` over the characters, left
to right; the first invalid character aborts with the `ValueError`
message. -/
def nameFold (acc : Nat) : List Char → Except String Nat
  | [] => .ok acc
  | c :: cs =>
    match charDigit c with
    | .error e => .error e
    | .ok d => nameFold (acc * 32 + d) cs

/-- The padding loop `while chars_processed < NAME_LENGTH: result *= 32`,
which runs exactly `12 - len(name)` times (the length has already been
checked to be at most 12 when the loop starts). -/
def padLoop (acc : Nat) : Nat → Nat
  | 0 => acc
  | k + 1 => padLoop (acc * 32) k

def action_name_to_u64 (name : String) : Except String Nat :=
  if name.length > 12 then .error "Action name too long"
  else
    match nameFold 0 name.toList with
    | .error e => .error e
    | .ok r => .ok (padLoop r (12 - name.length))

def ordPlaceName : String := "ord_place"

def ordPlaceExpected : Nat := 746789037603618816

/-- The base-32 accumulator value of a digit list, starting from `acc`. -/
def valAcc (acc : Nat) (ds : List Nat) : Nat :=
  ds.foldl (fun a d => a * 32 + d) acc

/-- `charDigit c` succeeded with value `d`. -/
def digitRel (c : Char) (d : Nat) : Prop := charDigit c = .ok d

/-- The last character of the string is the underscore (code point 95). -/
def endsInUnderscore (s : String) : Bool :=
  match s.toList.getLast? with
  | some c => c.toNat == 95
  | none => false

def nameA : String := "a"

def nameAUnderscore : String := "a_"

def collisionValue : Nat := 216172782113783808

/-! ## Enum discriminant tables (`types.py`) -/

inductive OrderSide
  | BUY
  | SELL
deriving DecidableEq

/-- `OrderSide.to_rust_index`: `0 if self == OrderSide.BUY else 1`. -/
def OrderSide.to_rust_index : OrderSide → Nat
  | .BUY => 0
  | .SELL => 1

inductive TimeInForce
  | GTC
  | IOC
  | FOK
deriving DecidableEq

/-- `TimeInForce.to_rust_index` looks the variant up in a mapping dict
that holds entries only for GTC and IOC; the FOK member is declared
after the method and has no entry, so looking it up raises `KeyError`,
modelled as `none`. -/
def TimeInForce.to_rust_index : TimeInForce → Option Nat
  | .GTC => some 0
  | .IOC => some 1
  | .FOK => none

/-- `MarketState.to_rust_index`: explicit table that skips the reserved
indices 2 (PostOnly) and 3 (CancelOnly). -/
inductive MarketState
  | ACTIVE
  | PAUSED
  | CLOSED
deriving DecidableEq

def MarketState.to_rust_index : MarketState → Nat
  | .ACTIVE => 0
  | .PAUSED => 1
  | .CLOSED => 4

/-! ## PlaceOrderParams (`types.py`, `bincode.py`) -/

/-- `PlaceOrderParams`: `side` and `tif` may be plain integers or enum
values (the serializer dispatches on `isinstance(. , int)` resp. the
presence of a `to_rust_index` attribute); the remaining fields are
integers and booleans, with the dataclass defaults. -/
structure PlaceOrderParams where
  side : Sum Nat OrderSide
  amount : Nat
  order_type : Nat
  limit_price : Nat
  tif : Sum Nat TimeInForce := .inl 0
  slippage : Nat := 100
  trigger_price : Nat := 0
  is_market : Bool := false
  trigger_type : Nat := 0

/-- `params.side if isinstance(params.side, int) else params.side.to_rust_index()`. -/
def sideIndex : Sum Nat OrderSide → Nat
  | .inl n => n
  | .inr s => s.to_rust_index

/-- `tif_value.to_rust_index() if hasattr(tif_value, 'to_rust_index') else int(tif_value)`;
the enum lookup can raise `KeyError`. -/
def tifIndex : Sum Nat TimeInForce → Option Nat
  | .inl n => some n
  | .inr t => t.to_rust_index

/-- `serialize_place_order_params` (`bincode.py` lines 74-116): side as
u32, amount as u64, the order-type tag as u32, the variant payload for
tags 0/1/2 (nothing for any other tag), then unconditionally the limit
price as u64. -/
def serialize_place_order_params (p : PlaceOrderParams) : Option (List Nat) := do
  let sideB ← packLE 4 (sideIndex p.side)
  let amountB ← packLE 8 p.amount
  let tagB ← packLE 4 p.order_type
  let payload ←
    if p.order_type = 0 then do
      let t ← tifIndex p.tif
      packLE 4 t
    else if p.order_type = 1 then
      packLE 8 p.slippage
    else if p.order_type = 2 then do
      let tp ← packLE 8 p.trigger_price
      let tt ← packLE 4 p.trigger_type
      pure (tp ++ boolByte p.is_market ++ tt)
    else
      pure []
  let lpB ← packLE 8 p.limit_price
  pure (sideB ++ amountB ++ tagB ++ payload ++ lpB)

/-- All integer fields are within the ranges `struct.pack` accepts. -/
def PlaceOrderParams.inRange (p : PlaceOrderParams) : Prop :=
  sideIndex p.side < 256 ^ 4 ∧ p.amount < 256 ^ 8 ∧ p.order_type < 256 ^ 4 ∧
  p.limit_price < 256 ^ 8 ∧ p.slippage < 256 ^ 8 ∧ p.trigger_price < 256 ^ 8 ∧
  p.trigger_type < 256 ^ 4

/-- A Sell limit order with the golden-vector field values and the given
time in force. -/
def limitOrderWith (t : TimeInForce) : PlaceOrderParams :=
  { side := .inr OrderSide.SELL, amount := 5000000, order_type := 0,
    limit_price := 50000000000, tif := .inr t }

def goldenPlaceOrder : PlaceOrderParams := limitOrderWith TimeInForce.GTC

def goldenPlaceOrderBytes : List Nat :=
  [1, 0, 0, 0,
   64, 75, 76, 0, 0, 0, 0, 0,
   0, 0, 0, 0,
   0, 0, 0, 0,
   0, 116, 59, 164, 11, 0, 0, 0]

/-! ## CancelOrderParams (`bincode.py` lines 119-156) -/

/-- Lowercase hex digit character code for a nibble. -/
def hexLowerDigit (n : Nat) : Nat :=
  if n < 10 then 48 + n else 87 + n

/-- CPython's escape of one byte inside a bytes repr with the given
quote character: backslash-escape the quote character and the backslash,
use the two-character escapes for tab, newline and carriage return, keep
other printable ASCII verbatim, and emit a lowercase hex escape for the
rest. -/
def pyByteEscape (quote c : Nat) : List Nat :=
  if c = quote ∨ c = 92 then [92, c]
  else if c = 9 then [92, 116]
  else if c = 10 then [92, 110]
  else if c = 13 then [92, 114]
  else if c < 32 ∨ 127 ≤ c then [92, 120, hexLowerDigit (c / 16), hexLowerDigit (c % 16)]
  else [c]

/-- `str(b)` for a Python bytes object `b`, as the character codes of
CPython's repr: a `b` prefix (code 98), a quote (single quote, code 39,
unless the bytes contain a single quote and no double quote, in which
case the double quote, code 34), the escaped bytes, and the closing
quote. -/
def pyReprBytes (b : List Nat) : List Nat :=
  let quote := if 39 ∈ b ∧ ¬ 34 ∈ b then 34 else 39
  98 :: quote :: (b.map (pyByteEscape quote)).flatten ++ [quote]

/-- Value of one hex digit character code (`0`-`9`, `a`-`f`, `A`-`F`). -/
def hexDigitVal (c : Nat) : Option Nat :=
  if 48 ≤ c ∧ c ≤ 57 then some (c - 48)
  else if 97 ≤ c ∧ c ≤ 102 then some (c - 87)
  else if 65 ≤ c ∧ c ≤ 70 then some (c - 55)
  else none

/-- `bytes.fromhex` on a string of hex-digit pairs; a non-hex character
or an odd length raises `ValueError` (the builtin additionally skips
ASCII whitespace, which cannot occur on the code paths modelled here
because the caller has already checked the exact length). -/
def fromHex : List Nat → Option (List Nat)
  | [] => some []
  | [_] => none
  | h :: l :: rest =>
    match hexDigitVal h, hexDigitVal l, fromHex rest with
    | some hv, some lv, some tail => some ((hv * 16 + lv) :: tail)
    | _, _, _ => none

/-- One iteration of the 16-to-32-byte expansion loop: the i-th 4-byte
chunk, zero-padded to 8 bytes, decoded as a little-endian integer and
re-encoded as a little-endian u64 word. -/
def chunkWord (b : List Nat) (i : Nat) : List Nat :=
  leBytes 8 (leVal ((b.drop (4 * i)).take 4 ++
    List.replicate (8 - ((b.drop (4 * i)).take 4).length) 0))

def expandOrderId (b : List Nat) : List Nat :=
  chunkWord b 0 ++ chunkWord b 1 ++ chunkWord b 2 ++ chunkWord b 3

/-- The final length dispatch: a 16-byte value is expanded to four u64
words, anything else is returned verbatim. -/
def cancelFromBytes (b : List Nat) : List Nat :=
  if b.length = 16 then expandOrderId b else b

/-- Character codes of the `0x` prefix. -/
def hexPrefix : List Nat := [48, 120]

/-- The string branch of `serialize_cancel_order_params`: strip a `0x`
prefix, require exactly 32 characters (`ValueError` otherwise), parse
them as hex to 16 bytes (`bytes.fromhex` raises `ValueError` on non-hex
input), then apply the length dispatch. -/
def cancelStrBranch (s : List Nat) : Except String (List Nat) :=
  if ((if s.take 2 = hexPrefix then s.drop 2 else s)).length ≠ 32 then
    .error "Invalid OrderId length"
  else
    match fromHex (if s.take 2 = hexPrefix then s.drop 2 else s) with
    | some b => .ok (cancelFromBytes b)
    | none => .error "non-hexadecimal number found in fromhex() arg"

/-- The possible runtime shapes of `params.order_id`: an object exposing
a `value` bytes attribute (`OrderId`/`ObjectID`), a raw Python bytes
object (which has no `value` attribute), or a string (as character
codes). -/
inductive PyOrderId
  | withValue (b : List Nat)
  | raw (b : List Nat)
  | pyStr (s : List Nat)

/-- `serialize_cancel_order_params`: an order id exposing a `value`
attribute contributes those bytes directly; anything else is converted
with `str()` and parsed as a hex string — for a raw bytes object,
`str()` yields the `b'...'` repr. -/
def serialize_cancel_order_params : PyOrderId → Except String (List Nat)
  | .withValue b => .ok (cancelFromBytes b)
  | .raw b => cancelStrBranch (pyReprBytes b)
  | .pyStr s => cancelStrBranch s

def sampleOrderId16 : List Nat :=
  [0, 1, 2, 3, 4, 5, 6, 7, 8, 9, 10, 11, 12, 13, 14, 15]

def sevenBytes : List Nat := List.replicate 7 65

/-! ## UpdateMarketParams (`types.py`, `bincode.py` lines 159-201) -/

/-- `UpdateMarketParams`: five independently optional fields, dataclass
defaults all `None`. -/
structure UpdateMarketParams where
  min_order_size : Option Nat := none
  maker_fee_bps : Option Nat := none
  taker_fee_bps : Option Nat := none
  allow_market_orders : Option Bool := none
  state : Option MarketState := none

/-- One optional numeric field: byte `0x00` when `None`, byte `0x01`
followed by the `width`-byte little-endian value when present. -/
def serOptNum (width : Nat) (o : Option Nat) : Option (List Nat) :=
  match o with
  | some v => (packLE width v).map (fun bs => 1 :: bs)
  | none => some [0]

/-- The presence-flagged layout of one optional numeric field, as the
specification describes it: `0x00` for absent, `0x01` followed by the
little-endian value for present. -/
def optNumLayout (width : Nat) (o : Option Nat) : List Nat :=
  match o with
  | none => [0]
  | some v => 1 :: leBytes width v

/-- One optional boolean field: `0x00` when `None`, `0x01` then the
boolean byte when present. -/
def serOptBool (o : Option Bool) : List Nat :=
  match o with
  | some v => 1 :: boolByte v
  | none => [0]

/-- `serialize_update_market_params`: the five presence-flagged fields
in fixed order; the state enum is first mapped through its discriminant
table and then written as a u32. -/
def serialize_update_market_params (p : UpdateMarketParams) : Option (List Nat) := do
  let f1 ← serOptNum 8 p.min_order_size
  let f2 ← serOptNum 2 p.maker_fee_bps
  let f3 ← serOptNum 2 p.taker_fee_bps
  let f4 := serOptBool p.allow_market_orders
  let f5 ← serOptNum 4 (p.state.map MarketState.to_rust_index)
  pure (f1 ++ f2 ++ f3 ++ f4 ++ f5)

def goldenUpdateMarket : UpdateMarketParams := { maker_fee_bps := some 15 }

def goldenUpdateMarketBytes : List Nat := [0, 1, 15, 0, 0, 0, 0]

/-! ## TransactionBuilder (`transaction.py`) -/

/-- `Action`: one addressed, named, parameterized operation; addresses
and object ids are carried as raw byte lists. -/
structure Action where
  action_type : String
  params : List Nat
  input_objects : List (List Nat)
  target_address : List Nat
  module_address : List Nat
deriving DecidableEq

/-- `Transaction`: sealed output of the builder. -/
structure Transaction where
  sender : List Nat
  nonce : Nat
  gas_budget : Nat
  gas_price : Nat
  expiration : Nat
  actions : List Action
deriving DecidableEq

/-- `TransactionBuilder.__init__` defaults. -/
structure TransactionBuilder where
  sender : Option (List Nat) := none
  nonce : Nat := 0
  gas_budget : Nat := 1000000
  gas_price : Nat := 1
  expiration : Nat := 0xFFFFFFFFFFFFFFFF
  actions : List Action := []

def TransactionBuilder.new : TransactionBuilder := {}

/-- The fluent `sender(...)` setter. -/
def TransactionBuilder.setSender (b : TransactionBuilder) (s : List Nat) :
    TransactionBuilder :=
  { b with sender := some s }

/-- The fluent `expiration(...)` setter. -/
def TransactionBuilder.setExpiration (b : TransactionBuilder) (e : Nat) :
    TransactionBuilder :=
  { b with expiration := e }

/-- `add_action`: appends to the ordered action list. -/
def TransactionBuilder.add_action (b : TransactionBuilder) (a : Action) :
    TransactionBuilder :=
  { b with actions := b.actions ++ [a] }

/-- `build`: `ValidationError` when the sender is unset or no action was
added, otherwise the sealed transaction with the accumulated fields. -/
def TransactionBuilder.build (b : TransactionBuilder) : Except String Transaction :=
  match b.sender with
  | none => .error "Sender address is required"
  | some s =>
    if b.actions = [] then .error "At least one action is required"
    else .ok { sender := s, nonce := b.nonce, gas_budget := b.gas_budget,
               gas_price := b.gas_price, expiration := b.expiration,
               actions := b.actions }

def sampleAction : Action :=
  { action_type := "ord_place", params := [], input_objects := [],
    target_address := List.replicate 32 0, module_address := List.replicate 32 0 }

def sampleSender : List Nat := List.replicate 32 1

/-! ## TokenCreatedEvent decoding (`bincode.py` lines 347-430)

The decoder reads, in strict left-to-right order: token id (16 bytes),
token address (32), name length (8, little-endian) and name bytes,
symbol length (8) and symbol bytes, total supply (8), creator (32),
mintable (1), to (32), balance id (16).  Each read is guarded by a
length check that raises `ValueError` naming the field; decoding the
name or symbol bytes as UTF-8 can additionally raise
`UnicodeDecodeError`.  Decoded strings are modelled by their UTF-8
bytes. -/

inductive TCEField
  | token_id
  | token_address
  | name_len
  | name
  | symbol_len
  | symbol
  | total_supply
  | creator
  | mintable
  | toAddr
  | balance_id
deriving DecidableEq

inductive TCEError
  | truncated (f : TCEField)
  | badUtf8 (f : TCEField)
deriving DecidableEq

structure TokenCreatedEvent where
  token_id : List Nat
  token_address : List Nat
  name : List Nat
  symbol : List Nat
  total_supply : Nat
  creator : List Nat
  mintable : Bool
  toAddr : List Nat
  balance_id : List Nat
deriving DecidableEq

/-- A UTF-8 continuation byte, `0x80..0xBF`. -/
def utf8Cont (c : Nat) : Bool := decide (128 ≤ c ∧ c ≤ 191)

/-- Strict UTF-8 validity of a byte sequence, as checked by Python's
`bytes.decode('utf-8')`: exactly the well-formed byte patterns of
RFC 3629 (no overlong forms, no surrogates, nothing above U+10FFFF). -/
def utf8Valid : List Nat → Bool
  | [] => true
  | b :: rest =>
    if b ≤ 127 then utf8Valid rest
    else if 194 ≤ b ∧ b ≤ 223 then
      match rest with
      | c1 :: r => utf8Cont c1 && utf8Valid r
      | [] => false
    else if b = 224 then
      match rest with
      | c1 :: c2 :: r => decide (160 ≤ c1 ∧ c1 ≤ 191) && utf8Cont c2 && utf8Valid r
      | _ => false
    else if (225 ≤ b ∧ b ≤ 236) ∨ b = 238 ∨ b = 239 then
      match rest with
      | c1 :: c2 :: r => utf8Cont c1 && utf8Cont c2 && utf8Valid r
      | _ => false
    else if b = 237 then
      match rest with
      | c1 :: c2 :: r => decide (128 ≤ c1 ∧ c1 ≤ 159) && utf8Cont c2 && utf8Valid r
      | _ => false
    else if b = 240 then
      match rest with
      | c1 :: c2 :: c3 :: r =>
        decide (144 ≤ c1 ∧ c1 ≤ 191) && utf8Cont c2 && utf8Cont c3 && utf8Valid r
      | _ => false
    else if 241 ≤ b ∧ b ≤ 243 then
      match rest with
      | c1 :: c2 :: c3 :: r => utf8Cont c1 && utf8Cont c2 && utf8Cont c3 && utf8Valid r
      | _ => false
    else if b = 244 then
      match rest with
      | c1 :: c2 :: c3 :: r =>
        decide (128 ≤ c1 ∧ c1 ≤ 143) && utf8Cont c2 && utf8Cont c3 && utf8Valid r
      | _ => false
    else false

/-- The name length parsed from bytes 48..56 (little-endian u64). -/
def tceNameLen (data : List Nat) : Nat := leVal ((data.drop 48).take 8)

/-- The symbol length parsed right after the name bytes. -/
def tceSymbolLen (data : List Nat) : Nat :=
  leVal ((data.drop (56 + tceNameLen data)).take 8)

/-- The name bytes, starting at offset 56. -/
def tceNameBytes (data : List Nat) : List Nat :=
  (data.drop 56).take (tceNameLen data)

/-- The symbol bytes, starting right after the symbol length field. -/
def tceSymbolBytes (data : List Nat) : List Nat :=
  (data.drop (64 + tceNameLen data)).take (tceSymbolLen data)

/-- The total number of bytes a complete TokenCreatedEvent payload
requires: 153 fixed bytes plus the two variable string bodies. -/
def tceRequiredLen (data : List Nat) : Nat :=
  153 + tceNameLen data + tceSymbolLen data

def deserialize_token_created_event (data : List Nat) :
    Except TCEError TokenCreatedEvent :=
  if data.length < 16 then .error (.truncated .token_id)
  else if data.length < 48 then .error (.truncated .token_address)
  else if data.length < 56 then .error (.truncated .name_len)
  else if data.length < 56 + tceNameLen data then .error (.truncated .name)
  else if utf8Valid (tceNameBytes data) = false then .error (.badUtf8 .name)
  else if data.length < 64 + tceNameLen data then .error (.truncated .symbol_len)
  else if data.length < 64 + tceNameLen data + tceSymbolLen data then
    .error (.truncated .symbol)
  else if utf8Valid (tceSymbolBytes data) = false then .error (.badUtf8 .symbol)
  else if data.length < 72 + tceNameLen data + tceSymbolLen data then
    .error (.truncated .total_supply)
  else if data.length < 104 + tceNameLen data + tceSymbolLen data then
    .error (.truncated .creator)
  else if data.length < 105 + tceNameLen data + tceSymbolLen data then
    .error (.truncated .mintable)
  else if data.length < 137 + tceNameLen data + tceSymbolLen data then
    .error (.truncated .toAddr)
  else if data.length < 153 + tceNameLen data + tceSymbolLen data then
    .error (.truncated .balance_id)
  else .ok {
    token_id := data.take 16,
    token_address := (data.drop 16).take 32,
    name := tceNameBytes data,
    symbol := tceSymbolBytes data,
    total_supply := leVal ((data.drop (64 + tceNameLen data + tceSymbolLen data)).take 8),
    creator := (data.drop (72 + tceNameLen data + tceSymbolLen data)).take 32,
    mintable := data.getD (104 + tceNameLen data + tceSymbolLen data) 0 != 0,
    toAddr := (data.drop (105 + tceNameLen data + tceSymbolLen data)).take 32,
    balance_id := (data.drop (137 + tceNameLen data + tceSymbolLen data)).take 16 }

def minimalTokenEventPayload : List Nat := List.replicate 153 0

/-! ## Address derivation (`crypto.py`, `Signer._compute_address`)

The signer hashes the raw 32-byte Ed25519 public key with SHA-512
(`hashlib.sha512`) and takes the first 32 bytes of the 64-byte digest
as the address.  SHA-512 itself is the Python standard library; it is
modelled here as the FIPS 180-4 algorithm (big-endian padding and
length field, 80 rounds over 64-bit words with explicit `% 2 ^ 64`
wrap-around), validated below against its published test vectors. -/

def rotr64 (r x : Nat) : Nat := (x / 2 ^ r) + (x % 2 ^ r) * 2 ^ (64 - r)

def shr64 (r x : Nat) : Nat := x / 2 ^ r

def u64Ch (e f g : Nat) : Nat := (e &&& f) ^^^ ((e ^^^ (2 ^ 64 - 1)) &&& g)

def u64Maj (a b c : Nat) : Nat := (a &&& b) ^^^ (a &&& c) ^^^ (b &&& c)

def bigSigma0 (a : Nat) : Nat := rotr64 28 a ^^^ rotr64 34 a ^^^ rotr64 39 a

def bigSigma1 (e : Nat) : Nat := rotr64 14 e ^^^ rotr64 18 e ^^^ rotr64 41 e

def smallSigma0 (x : Nat) : Nat := rotr64 1 x ^^^ rotr64 8 x ^^^ shr64 7 x

def smallSigma1 (x : Nat) : Nat := rotr64 19 x ^^^ rotr64 61 x ^^^ shr64 6 x

def sha512K : List Nat :=
  [4794697086780616226, 8158064640168781261, 13096744586834688815,
   16840607885511220156, 4131703408338449720, 6480981068601479193,
   10538285296894168987, 12329834152419229976, 15566598209576043074,
   1334009975649890238, 2608012711638119052, 6128411473006802146,
   8268148722764581231, 9286055187155687089, 11230858885718282805,
   13951009754708518548, 16472876342353939154, 17275323862435702243,
   1135362057144423861, 2597628984639134821, 3308224258029322869,
   5365058923640841347, 6679025012923562964, 8573033837759648693,
   10970295158949994411, 12119686244451234320, 12683024718118986047,
   13788192230050041572, 14330467153632333762, 15395433587784984357,
   489312712824947311, 1452737877330783856, 2861767655752347644,
   3322285676063803686, 5560940570517711597, 5996557281743188959,
   7280758554555802590, 8532644243296465576, 9350256976987008742,
   10552545826968843579, 11727347734174303076, 12113106623233404929,
   14000437183269869457, 14369950271660146224, 15101387698204529176,
   15463397548674623760, 17586052441742319658, 1182934255886127544,
   1847814050463011016, 2177327727835720531, 2830643537854262169,
   3796741975233480872, 4115178125766777443, 5681478168544905931,
   6601373596472566643, 7507060721942968483, 8399075790359081724,
   8693463985226723168, 9568029438360202098, 10144078919501101548,
   10430055236837252648, 11840083180663258601, 13761210420658862357,
   14299343276471374635, 14566680578165727644, 15097957966210449927,
   16922976911328602910, 17689382322260857208, 500013540394364858,
   748580250866718886, 1242879168328830382, 1977374033974150939,
   2944078676154940804, 3659926193048069267, 4368137639120453308,
   4836135668995329356, 5532061633213252278, 6448918945643986474,
   6902733635092675308, 7801388544844847127]

def sha512H0 : List Nat :=
  [7640891576956012808, 13503953896175478587, 4354685564936845355,
   11912009170470909681, 5840696475078001361, 11170449401992604703,
   2270897969802886507, 6620516959819538809]

def beVal (bs : List Nat) : Nat := bs.foldl (fun acc b => acc * 256 + b) 0

def beBytes (width n : Nat) : List Nat := (leBytes width n).reverse

def sha512PadZeros (L : Nat) : Nat := (112 + 128 - ((L + 1) % 128)) % 128

def sha512Pad (msg : List Nat) : List Nat :=
  msg ++ [128] ++ List.replicate (sha512PadZeros msg.length) 0 ++
    beBytes 16 (8 * msg.length)

def toWordsAux : Nat → List Nat → List Nat
  | 0, _ => []
  | _, [] => []
  | fuel + 1, bs => beVal (bs.take 8) :: toWordsAux fuel (bs.drop 8)

def toBlocksAux : Nat → List Nat → List (List Nat)
  | 0, _ => []
  | _, [] => []
  | fuel + 1, ws => ws.take 16 :: toBlocksAux fuel (ws.drop 16)

def scheduleStep (ws : List Nat) : List Nat :=
  ws ++ [(smallSigma1 (ws.getD (ws.length - 2) 0) + ws.getD (ws.length - 7) 0 +
          smallSigma0 (ws.getD (ws.length - 15) 0) + ws.getD (ws.length - 16) 0) % 2 ^ 64]

def extendSchedule : Nat → List Nat → List Nat
  | 0, ws => ws
  | k + 1, ws => extendSchedule k (scheduleStep ws)

structure SHA512State where
  a : Nat
  b : Nat
  c : Nat
  d : Nat
  e : Nat
  f : Nat
  g : Nat
  h : Nat

def sha512Round (s : SHA512State) (kw : Nat × Nat) : SHA512State :=
  let t1 := (s.h + bigSigma1 s.e + u64Ch s.e s.f s.g + kw.1 + kw.2) % 2 ^ 64
  let t2 := (bigSigma0 s.a + u64Maj s.a s.b s.c) % 2 ^ 64
  { a := (t1 + t2) % 2 ^ 64, b := s.a, c := s.b, d := s.c,
    e := (s.d + t1) % 2 ^ 64, f := s.e, g := s.f, h := s.g }

def sha512Compress (hv : List Nat) (block : List Nat) : List Nat :=
  let ws := extendSchedule 64 block
  let s0 : SHA512State :=
    ⟨hv.getD 0 0, hv.getD 1 0, hv.getD 2 0, hv.getD 3 0,
     hv.getD 4 0, hv.getD 5 0, hv.getD 6 0, hv.getD 7 0⟩
  let s := (sha512K.zip ws).foldl sha512Round s0
  [(hv.getD 0 0 + s.a) % 2 ^ 64, (hv.getD 1 0 + s.b) % 2 ^ 64,
   (hv.getD 2 0 + s.c) % 2 ^ 64, (hv.getD 3 0 + s.d) % 2 ^ 64,
   (hv.getD 4 0 + s.e) % 2 ^ 64, (hv.getD 5 0 + s.f) % 2 ^ 64,
   (hv.getD 6 0 + s.g) % 2 ^ 64, (hv.getD 7 0 + s.h) % 2 ^ 64]

def sha512 (msg : List Nat) : List Nat :=
  let padded := sha512Pad msg
  let words := toWordsAux padded.length padded
  let blocks := toBlocksAux words.length words
  ((blocks.foldl sha512Compress sha512H0).map (beBytes 8)).flatten

/-- `Signer._compute_address`: the first 32 bytes of the SHA-512 digest
of the raw public key bytes. -/
def compute_address (public_key_bytes : List Nat) : List Nat :=
  (sha512 public_key_bytes).take 32

def zeroPublicKey : List Nat := List.replicate 32 0

/-- First 32 bytes of the SHA-512 digest of 32 zero bytes (the published
value of that digest). -/
def zeroPublicKeyAddress : List Nat :=
  [80, 70, 173, 193, 219, 168, 56, 134, 123, 43, 187, 253, 208, 195, 66, 62,
   88, 181, 121, 112, 181, 38, 122, 144, 245, 121, 96, 146, 74, 135, 241, 150]

end LightPool

namespace LightPool

/-! ## Helper lemmas on bytes -/

theorem leBytes_length (width n : Nat) : (leBytes width n).length = width := by
  induction width generalizing n with
  | zero => rfl
  | succ w ih => simp [leBytes, ih]

theorem leBytes_leVal (l : List Nat) (width : Nat)
    (hlen : l.length = width) (hbytes : ∀ x ∈ l, x < 256) :
    leBytes width (leVal l) = l := by
  induction l generalizing width with
  | nil => subst hlen; rfl
  | cons b rest ih =>
    subst hlen
    have hb : b < 256 := hbytes b (by simp)
    have hrest : ∀ x ∈ rest, x < 256 := fun x hx => hbytes x (by simp [hx])
    simp only [leBytes, leVal, List.length_cons]
    have h0 : (b + 256 * leVal rest) % 256 = b := by omega
    have h1 : (b + 256 * leVal rest) / 256 = leVal rest := by omega
    rw [h0, h1, ih rest.length rfl hrest]

theorem leVal_lt (l : List Nat) (hbytes : ∀ x ∈ l, x < 256) :
    leVal l < 256 ^ l.length := by
  induction l with
  | nil => simp [leVal]
  | cons b rest ih =>
    have hb : b < 256 := hbytes b (by simp)
    have hrest := ih (fun x hx => hbytes x (by simp [hx]))
    simp only [leVal, List.length_cons, pow_succ]
    calc b + 256 * leVal rest < 256 + 256 * leVal rest := by omega
    _ = 256 * (leVal rest + 1) := by ring
    _ ≤ 256 * 256 ^ rest.length := by
        have : leVal rest + 1 ≤ 256 ^ rest.length := hrest
        exact Nat.mul_le_mul_left 256 this
    _ = 256 ^ rest.length * 256 := by ring

theorem packLE_of_lt (width n : Nat) (h : n < 256 ^ width) :
    packLE width n = some (leBytes width n) := by
  simp [packLE, h]

/-! ## IdentifierPacker lemmas -/

theorem charDigit_lt (c : Char) (d : Nat) (h : charDigit c = .ok d) : d < 32 := by
  unfold charDigit at h
  split at h
  · injection h with h; omega
  · split at h
    · injection h with h; omega
    · split at h
      · injection h with h; omega
      · cases h

theorem charDigit_zero (c : Char) (h : charDigit c = .ok 0) : c.toNat = 95 := by
  unfold charDigit at h
  split at h
  · assumption
  · split at h
    · injection h with h; omega
    · split at h
      · injection h with h; omega
      · cases h

theorem charDigit_inj (c₁ c₂ : Char) (d : Nat)
    (h₁ : charDigit c₁ = .ok d) (h₂ : charDigit c₂ = .ok d) : c₁ = c₂ := by
  have key : c₁.toNat = c₂.toNat := by
    unfold charDigit at h₁ h₂
    split_ifs at h₁ h₂ <;>
      (injection h₁ with e₁; injection h₂ with e₂; omega)
  have hval : c₁.val.toNat = c₂.val.toNat := key
  exact Char.eq_of_val_eq (UInt32.toNat.inj hval)

theorem nameFold_ok (cs : List Char) (acc v : Nat)
    (h : nameFold acc cs = .ok v) :
    ∃ ds, List.Forall₂ digitRel cs ds ∧ v = valAcc acc ds := by
  induction cs generalizing acc with
  | nil =>
    refine ⟨[], .nil, ?_⟩
    simp only [nameFold] at h
    injection h with h
    simp [valAcc, h]
  | cons c cs ih =>
    simp only [nameFold] at h
    cases hc : charDigit c with
    | error e => rw [hc] at h; cases h
    | ok d =>
      rw [hc] at h
      obtain ⟨ds, hds, hv⟩ := ih _ h
      exact ⟨d :: ds, .cons hc hds, by simpa [valAcc] using hv⟩

theorem forall₂_digits_lt (cs : List Char) (ds : List Nat)
    (h : List.Forall₂ digitRel cs ds) : ∀ d ∈ ds, d < 32 := by
  induction h with
  | nil => simp
  | cons hcd _ ih =>
    intro d hd
    rcases List.mem_cons.mp hd with rfl | hd
    · exact charDigit_lt _ _ hcd
    · exact ih _ hd

theorem forall₂_chars_inj (cs₁ cs₂ : List Char) (ds : List Nat)
    (h₁ : List.Forall₂ digitRel cs₁ ds) (h₂ : List.Forall₂ digitRel cs₂ ds) :
    cs₁ = cs₂ := by
  induction ds generalizing cs₁ cs₂ with
  | nil => cases h₁; cases h₂; rfl
  | cons d ds ih =>
    cases h₁ with
    | cons hc₁ ht₁ =>
      cases h₂ with
      | cons hc₂ ht₂ =>
        rw [charDigit_inj _ _ _ hc₁ hc₂, ih _ _ ht₁ ht₂]

theorem forall₂_last_underscore (cs : List Char) (ds : List Nat)
    (h : List.Forall₂ digitRel cs ds) :
    ds.getLast? = some 0 → ∃ c, cs.getLast? = some c ∧ c.toNat = 95 := by
  induction h with
  | nil => intro h0; simp at h0
  | @cons c d cs ds hcd htl ih =>
    intro h0
    cases htl with
    | nil =>
      simp only [List.getLast?_singleton, Option.some.injEq] at h0
      subst h0
      exact ⟨c, by simp, charDigit_zero c hcd⟩
    | @cons c' d' cs' ds' hcd' htl' =>
      rw [List.getLast?_cons_cons] at h0
      obtain ⟨cl, hcl, h95⟩ := ih h0
      exact ⟨cl, by rw [List.getLast?_cons_cons]; exact hcl, h95⟩

theorem padLoop_eq (acc k : Nat) : padLoop acc k = acc * 32 ^ k := by
  induction k generalizing acc with
  | zero => simp [padLoop]
  | succ k ih =>
    show padLoop (acc * 32) k = acc * 32 ^ (k + 1)
    rw [ih (acc * 32)]
    ring

theorem valAcc_eq (acc : Nat) (ds : List Nat) :
    valAcc acc ds = acc * 32 ^ ds.length + valAcc 0 ds := by
  induction ds generalizing acc with
  | nil => simp [valAcc]
  | cons d ds ih =>
    show valAcc (acc * 32 + d) ds = acc * 32 ^ (ds.length + 1) + valAcc (0 * 32 + d) ds
    rw [ih (acc * 32 + d), ih (0 * 32 + d)]
    ring

theorem valAcc_zero_lt (ds : List Nat) (hb : ∀ d ∈ ds, d < 32) :
    valAcc 0 ds < 32 ^ ds.length := by
  induction ds with
  | nil => simp [valAcc]
  | cons d ds ih =>
    have hd : d < 32 := hb d (by simp)
    have hrest := ih (fun x hx => hb x (by simp [hx]))
    show valAcc (0 * 32 + d) ds < 32 ^ (ds.length + 1)
    rw [valAcc_eq]
    calc (0 * 32 + d) * 32 ^ ds.length + valAcc 0 ds
        < (0 * 32 + d) * 32 ^ ds.length + 32 ^ ds.length := by omega
    _ = (d + 1) * 32 ^ ds.length := by ring
    _ ≤ 32 * 32 ^ ds.length := Nat.mul_le_mul_right _ (by omega)
    _ = 32 ^ (ds.length + 1) := by ring

theorem valAcc_zero_fixed_inj (ds₁ ds₂ : List Nat)
    (hlen : ds₁.length = ds₂.length)
    (hb₁ : ∀ d ∈ ds₁, d < 32) (hb₂ : ∀ d ∈ ds₂, d < 32)
    (heq : valAcc 0 ds₁ = valAcc 0 ds₂) : ds₁ = ds₂ := by
  induction ds₁ generalizing ds₂ with
  | nil => cases ds₂ with
    | nil => rfl
    | cons d ds => simp at hlen
  | cons d₁ t₁ ih =>
    cases ds₂ with
    | nil => simp at hlen
    | cons d₂ t₂ =>
      simp only [List.length_cons] at hlen
      have hd₁ : d₁ < 32 := hb₁ d₁ (by simp)
      have hd₂ : d₂ < 32 := hb₂ d₂ (by simp)
      have hbt₁ : ∀ x ∈ t₁, x < 32 := fun x hx => hb₁ x (by simp [hx])
      have hbt₂ : ∀ x ∈ t₂, x < 32 := fun x hx => hb₂ x (by simp [hx])
      have e₁ : valAcc 0 (d₁ :: t₁) = d₁ * 32 ^ t₁.length + valAcc 0 t₁ := by
        show valAcc (0 * 32 + d₁) t₁ = _
        rw [valAcc_eq]; ring_nf
      have e₂ : valAcc 0 (d₂ :: t₂) = d₂ * 32 ^ t₂.length + valAcc 0 t₂ := by
        show valAcc (0 * 32 + d₂) t₂ = _
        rw [valAcc_eq]; ring_nf
      have hlen' : t₂.length = t₁.length := by omega
      rw [e₁, e₂, hlen'] at heq
      have hr₁ : valAcc 0 t₁ < 32 ^ t₁.length := valAcc_zero_lt t₁ hbt₁
      have hr₂ : valAcc 0 t₂ < 32 ^ t₂.length := valAcc_zero_lt t₂ hbt₂
      rw [hlen'] at hr₂
      have hP : 0 < 32 ^ t₁.length := Nat.pos_pow_of_pos _ (by omega)
      have hdiv₁ : (d₁ * 32 ^ t₁.length + valAcc 0 t₁) / 32 ^ t₁.length = d₁ := by
        rw [Nat.add_comm, Nat.add_mul_div_right _ _ hP, Nat.div_eq_of_lt hr₁]
        omega
      have hdiv₂ : (d₂ * 32 ^ t₁.length + valAcc 0 t₂) / 32 ^ t₁.length = d₂ := by
        rw [Nat.add_comm, Nat.add_mul_div_right _ _ hP, Nat.div_eq_of_lt hr₂]
        omega
      have hmod₁ : (d₁ * 32 ^ t₁.length + valAcc 0 t₁) % 32 ^ t₁.length = valAcc 0 t₁ := by
        rw [Nat.add_comm, Nat.add_mul_mod_self_right, Nat.mod_eq_of_lt hr₁]
      have hmod₂ : (d₂ * 32 ^ t₁.length + valAcc 0 t₂) % 32 ^ t₁.length = valAcc 0 t₂ := by
        rw [Nat.add_comm, Nat.add_mul_mod_self_right, Nat.mod_eq_of_lt hr₂]
      have hd : d₁ = d₂ := by rw [← hdiv₁, ← hdiv₂, heq]
      have hv : valAcc 0 t₁ = valAcc 0 t₂ := by rw [← hmod₁, ← hmod₂, heq]
      rw [hd, ih t₂ hlen'.symm hbt₁ hbt₂ hv]

theorem valAcc_zero_append (l : List Nat) (d : Nat) :
    valAcc 0 (l ++ [d]) = valAcc 0 l * 32 + d := by
  unfold valAcc
  rw [List.foldl_append]
  rfl

theorem packed_le_aux (ds₁ ds₂ : List Nat)
    (hb₁ : ∀ d ∈ ds₁, d < 32) (hb₂ : ∀ d ∈ ds₂, d < 32)
    (hl₂ : ds₂.length ≤ 12)
    (hz₂ : ds₂.getLast? ≠ some 0)
    (hle : ds₁.length ≤ ds₂.length)
    (heq : valAcc 0 ds₁ * 32 ^ (12 - ds₁.length) = valAcc 0 ds₂ * 32 ^ (12 - ds₂.length)) :
    ds₁ = ds₂ := by
  have hsplit : 12 - ds₁.length = (ds₂.length - ds₁.length) + (12 - ds₂.length) := by omega
  rw [hsplit, pow_add, ← Nat.mul_assoc] at heq
  have hPpos : 0 < 32 ^ (12 - ds₂.length) := Nat.pos_pow_of_pos _ (by omega)
  have hv : valAcc 0 ds₁ * 32 ^ (ds₂.length - ds₁.length) = valAcc 0 ds₂ :=
    Nat.eq_of_mul_eq_mul_right hPpos heq
  rcases Nat.eq_or_lt_of_le hle with hEq | hLt
  · rw [hEq] at hv
    simp only [Nat.sub_self, pow_zero, Nat.mul_one] at hv
    exact valAcc_zero_fixed_inj ds₁ ds₂ hEq hb₁ hb₂ hv
  · exfalso
    have hne : ds₂ ≠ [] := by
      intro hnil
      rw [hnil] at hLt
      simp at hLt
    rcases ds₂.eq_nil_or_concat with hnil | ⟨L, b, hconcat⟩
    · exact hne hnil
    · have hLb : ds₂ = L ++ [b] := by simpa [List.concat_eq_append] using hconcat
      have hlast : ds₂.getLast? = some b := by rw [hLb]; simp
      have hbne : b ≠ 0 := fun h0 => hz₂ (by rw [hlast, h0])
      have hblt : b < 32 := hb₂ b (by rw [hLb]; simp)
      have hv₂ : valAcc 0 ds₂ = valAcc 0 L * 32 + b := by
        rw [hLb]; exact valAcc_zero_append L b
      have hdvd : 32 ∣ valAcc 0 ds₂ := by
        rcases Nat.exists_eq_add_of_lt hLt with ⟨k, hk⟩
        have : ds₂.length - ds₁.length = k + 1 := by omega
        rw [this, pow_succ, ← Nat.mul_assoc] at hv
        exact ⟨valAcc 0 ds₁ * 32 ^ k, by omega⟩
      rcases hdvd with ⟨m, hm⟩
      omega

theorem packed_le_inj (ds₁ ds₂ : List Nat)
    (hb₁ : ∀ d ∈ ds₁, d < 32) (hb₂ : ∀ d ∈ ds₂, d < 32)
    (hl₁ : ds₁.length ≤ 12) (hl₂ : ds₂.length ≤ 12)
    (hz₁ : ds₁.getLast? ≠ some 0) (hz₂ : ds₂.getLast? ≠ some 0)
    (heq : valAcc 0 ds₁ * 32 ^ (12 - ds₁.length) = valAcc 0 ds₂ * 32 ^ (12 - ds₂.length)) :
    ds₁ = ds₂ := by
  rcases Nat.le_total ds₁.length ds₂.length with hle | hle
  · exact packed_le_aux ds₁ ds₂ hb₁ hb₂ hl₂ hz₂ hle heq
  · exact (packed_le_aux ds₂ ds₁ hb₂ hb₁ hl₁ hz₁ hle heq.symm).symm

theorem action_name_ok_characterization (s : String) (v : Nat)
    (h : action_name_to_u64 s = .ok v) :
    ∃ ds, List.Forall₂ digitRel s.toList ds ∧ ds.length = s.toList.length ∧
      ds.length ≤ 12 ∧ v = valAcc 0 ds * 32 ^ (12 - ds.length) := by
  unfold action_name_to_u64 at h
  split at h
  · cases h
  · rename_i hlen
    cases hf : nameFold 0 s.toList with
    | error e => rw [hf] at h; cases h
    | ok r =>
      rw [hf] at h
      injection h with h
      obtain ⟨ds, hds, hr⟩ := nameFold_ok _ _ _ hf
      have hdslen : ds.length = s.toList.length := hds.length_eq.symm
      have hslen : s.length = s.toList.length := rfl
      refine ⟨ds, hds, hdslen, by omega, ?_⟩
      rw [← h, padLoop_eq, hr, hdslen, ← hslen]

/-- C1 (amended): the name packing is injective over valid names of
length at most 12 that do not end in the underscore character. -/
theorem action_name_to_u64_injective_amended (s₁ s₂ : String) (v : Nat)
    (h₁ : action_name_to_u64 s₁ = .ok v) (h₂ : action_name_to_u64 s₂ = .ok v)
    (hu₁ : endsInUnderscore s₁ = false) (hu₂ : endsInUnderscore s₂ = false) :
    s₁ = s₂ := by
  obtain ⟨ds₁, hds₁, hlen₁, hle₁, hv₁⟩ := action_name_ok_characterization s₁ v h₁
  obtain ⟨ds₂, hds₂, hlen₂, hle₂, hv₂⟩ := action_name_ok_characterization s₂ v h₂
  have hz₁ : ds₁.getLast? ≠ some 0 := by
    intro h0
    obtain ⟨c, hc, h95⟩ := forall₂_last_underscore _ _ hds₁ h0
    unfold endsInUnderscore at hu₁
    rw [hc] at hu₁
    simp [h95] at hu₁
  have hz₂ : ds₂.getLast? ≠ some 0 := by
    intro h0
    obtain ⟨c, hc, h95⟩ := forall₂_last_underscore _ _ hds₂ h0
    unfold endsInUnderscore at hu₂
    rw [hc] at hu₂
    simp [h95] at hu₂
  have hdseq : ds₁ = ds₂ := by
    apply packed_le_inj ds₁ ds₂ (forall₂_digits_lt _ _ hds₁) (forall₂_digits_lt _ _ hds₂)
      hle₁ hle₂ hz₁ hz₂
    rw [← hv₁, ← hv₂]
  have hchars : s₁.toList = s₂.toList := by
    apply forall₂_chars_inj _ _ ds₁ hds₁
    rw [hdseq]
    exact hds₂
  cases s₁
  cases s₂
  exact congrArg String.mk hchars

/-- C1 (witness for the amended theorem): the hypotheses are satisfiable
at the concrete name `ord_place`. -/
theorem action_name_injective_witness :
    action_name_to_u64 ordPlaceName = .ok ordPlaceExpected ∧
    endsInUnderscore ordPlaceName = false ∧ ordPlaceName = ordPlaceName :=
  ⟨rfl, rfl,
    action_name_to_u64_injective_amended ordPlaceName ordPlaceName ordPlaceExpected
      rfl rfl rfl rfl⟩

/-- C1 (counterexample): the packing is not injective over all valid
strings of length at most 12: the distinct valid names `a` and `a_`
pack to the same integer, because the underscore encodes to the same
zero digit that right-padding appends. -/
theorem action_name_collision :
    nameA ≠ nameAUnderscore ∧
    action_name_to_u64 nameA = .ok collisionValue ∧
    action_name_to_u64 nameAUnderscore = .ok collisionValue :=
  ⟨by decide, rfl, rfl⟩

/-- C2: packing the name `ord_place` with the base-32 fold-and-pad
algorithm yields exactly 746789037603618816. -/
theorem action_name_to_u64_ord_place :
    action_name_to_u64 ordPlaceName = .ok ordPlaceExpected := by
  rfl

/-! ## PlaceOrderParams theorems -/

/-- C3: for every in-range `PlaceOrderParams`, the serializer emits side
(u32 LE), amount (u64 LE), the order-type tag (u32 LE), the variant
payload (Limit: time-in-force u32; Market: slippage u64; Trigger:
trigger price u64, is-market byte, trigger kind u32), and then
unconditionally the limit price as u64 LE; and the Sell/5,000,000/
Limit-GTC/50,000,000,000 golden vector encodes to exactly the 28 bytes
`01000000404b4c0000000000000000000000000000743ba40b000000`. -/
theorem serialize_place_order_params_layout :
    (∀ p : PlaceOrderParams, p.inRange →
      ∀ t, tifIndex p.tif = some t → t < 256 ^ 4 →
        serialize_place_order_params p =
          some (leBytes 4 (sideIndex p.side) ++ leBytes 8 p.amount ++
            leBytes 4 p.order_type ++
            (if p.order_type = 0 then leBytes 4 t
             else if p.order_type = 1 then leBytes 8 p.slippage
             else if p.order_type = 2 then
               leBytes 8 p.trigger_price ++ boolByte p.is_market ++
                 leBytes 4 p.trigger_type
             else []) ++
            leBytes 8 p.limit_price)) ∧
    serialize_place_order_params goldenPlaceOrder = some goldenPlaceOrderBytes ∧
    goldenPlaceOrderBytes.length = 28 := by
  refine ⟨?_, rfl, rfl⟩
  rintro p ⟨h₁, h₂, h₃, h₄, h₅, h₆, h₇⟩ t ht htlt
  simp only [serialize_place_order_params, packLE_of_lt _ _ h₁, packLE_of_lt _ _ h₂,
    packLE_of_lt _ _ h₃, packLE_of_lt _ _ h₄, packLE_of_lt _ _ h₅,
    packLE_of_lt _ _ h₆, packLE_of_lt _ _ h₇, packLE_of_lt _ _ htlt, ht,
    Option.bind_some, Option.some_bind]
  split
  · simp [packLE_of_lt _ _ htlt]
  · split
    · rfl
    · split
      · rfl
      · rfl

/-- C3 (witness): the layout theorem applies to the golden order. -/
theorem serialize_place_order_params_witness :
    goldenPlaceOrder.inRange ∧ tifIndex goldenPlaceOrder.tif = some 0 ∧
    (0 : Nat) < 256 ^ 4 ∧
    serialize_place_order_params goldenPlaceOrder =
      some (leBytes 4 (sideIndex goldenPlaceOrder.side) ++
        leBytes 8 goldenPlaceOrder.amount ++ leBytes 4 goldenPlaceOrder.order_type ++
        (if goldenPlaceOrder.order_type = 0 then leBytes 4 0
         else if goldenPlaceOrder.order_type = 1 then leBytes 8 goldenPlaceOrder.slippage
         else if goldenPlaceOrder.order_type = 2 then
           leBytes 8 goldenPlaceOrder.trigger_price ++ boolByte goldenPlaceOrder.is_market ++
             leBytes 4 goldenPlaceOrder.trigger_type
         else []) ++
        leBytes 8 goldenPlaceOrder.limit_price) :=
  ⟨⟨by decide, by decide, by decide, by decide, by decide, by decide, by decide⟩,
    rfl, by decide,
    serialize_place_order_params_layout.1 goldenPlaceOrder
      ⟨by decide, by decide, by decide, by decide, by decide, by decide, by decide⟩
      0 rfl (by decide)⟩

/-- C4: the code evaluated at the failing input.  GTC and IOC encode a
Limit order with discriminants 0 and 1 as 4-byte little-endian words,
but the mapping dict inside `TimeInForce.to_rust_index` has no entry for
FOK, so encoding a Limit order with time-in-force FOK raises `KeyError`
instead of writing discriminant 2: encoding does not succeed for all
three variants. -/
theorem timeInForce_fok_keyerror :
    TimeInForce.to_rust_index .GTC = some 0 ∧
    TimeInForce.to_rust_index .IOC = some 1 ∧
    TimeInForce.to_rust_index .FOK = none ∧
    serialize_place_order_params (limitOrderWith .GTC) =
      some (leBytes 4 1 ++ leBytes 8 5000000 ++ leBytes 4 0 ++ leBytes 4 0 ++
        leBytes 8 50000000000) ∧
    serialize_place_order_params (limitOrderWith .IOC) =
      some (leBytes 4 1 ++ leBytes 8 5000000 ++ leBytes 4 0 ++ leBytes 4 1 ++
        leBytes 8 50000000000) ∧
    serialize_place_order_params (limitOrderWith .FOK) = none := by
  exact ⟨rfl, rfl, rfl, by decide, by decide, rfl⟩

/-! ## CancelOrderParams theorems -/

theorem chunkWord_eq (b : List Nat) (i : Nat) (hlen : b.length = 16) (hi : i < 4)
    (hbytes : ∀ x ∈ b, x < 256) :
    chunkWord b i = (b.drop (4 * i)).take 4 ++ [0, 0, 0, 0] := by
  unfold chunkWord
  have hc : ((b.drop (4 * i)).take 4).length = 4 := by
    simp only [List.length_take, List.length_drop, hlen]
    omega
  rw [hc]
  have hall : ∀ x ∈ (b.drop (4 * i)).take 4 ++ List.replicate (8 - 4) 0, x < 256 := by
    intro x hx
    rcases List.mem_append.mp hx with hx | hx
    · exact hbytes x (List.drop_subset _ _ (List.take_subset _ _ hx))
    · rw [List.eq_of_mem_replicate hx]; omega
  have hlen8 : ((b.drop (4 * i)).take 4 ++ List.replicate (8 - 4) 0).length = 8 := by
    simp [hc]
  rw [leBytes_leVal _ 8 hlen8 hall]
  rfl

/-- C5: every 16-byte legacy order reference expands to 32 bytes —
four 4-byte chunks, each zero-extended to 8 bytes and re-encoded as a
little-endian u64 word; a 32-byte order id is emitted verbatim; and the
expansion is idempotent: applying the encoder to an already-expanded
value returns it unchanged. -/
theorem serialize_cancel_order_params_expansion :
    (∀ b : List Nat, b.length = 16 → (∀ x ∈ b, x < 256) →
      serialize_cancel_order_params (.withValue b) =
        .ok (b.take 4 ++ [0, 0, 0, 0] ++ (b.drop 4).take 4 ++ [0, 0, 0, 0] ++
          (b.drop 8).take 4 ++ [0, 0, 0, 0] ++ (b.drop 12).take 4 ++ [0, 0, 0, 0])) ∧
    (∀ b : List Nat, b.length = 32 →
      serialize_cancel_order_params (.withValue b) = .ok b) ∧
    (∀ b r : List Nat, b.length = 16 → (∀ x ∈ b, x < 256) →
      serialize_cancel_order_params (.withValue b) = .ok r →
      serialize_cancel_order_params (.withValue r) = .ok r) := by
  have h16 : ∀ b : List Nat, b.length = 16 → (∀ x ∈ b, x < 256) →
      serialize_cancel_order_params (.withValue b) =
        .ok (b.take 4 ++ [0, 0, 0, 0] ++ (b.drop 4).take 4 ++ [0, 0, 0, 0] ++
          (b.drop 8).take 4 ++ [0, 0, 0, 0] ++ (b.drop 12).take 4 ++ [0, 0, 0, 0]) := by
    intro b hlen hbytes
    simp only [serialize_cancel_order_params, cancelFromBytes, hlen, if_pos rfl,
      expandOrderId, chunkWord_eq b 0 hlen (by omega) hbytes,
      chunkWord_eq b 1 hlen (by omega) hbytes,
      chunkWord_eq b 2 hlen (by omega) hbytes,
      chunkWord_eq b 3 hlen (by omega) hbytes]
    simp [List.append_assoc]
  have h32 : ∀ b : List Nat, b.length = 32 →
      serialize_cancel_order_params (.withValue b) = .ok b := by
    intro b hlen
    simp [serialize_cancel_order_params, cancelFromBytes, hlen]
  refine ⟨h16, h32, ?_⟩
  intro b r hlen hbytes hser
  rw [h16 b hlen hbytes] at hser
  injection hser with hr
  apply h32
  rw [← hr]
  simp [List.length_take, List.length_drop, hlen]

/-- C5 (witness): the expansion theorem applies to a concrete 16-byte
legacy reference. -/
theorem serialize_cancel_order_params_witness :
    sampleOrderId16.length = 16 ∧ (∀ x ∈ sampleOrderId16, x < 256) ∧
    serialize_cancel_order_params (.withValue sampleOrderId16) =
      .ok (sampleOrderId16.take 4 ++ [0, 0, 0, 0] ++ (sampleOrderId16.drop 4).take 4 ++
        [0, 0, 0, 0] ++ (sampleOrderId16.drop 8).take 4 ++ [0, 0, 0, 0] ++
        (sampleOrderId16.drop 12).take 4 ++ [0, 0, 0, 0]) :=
  ⟨rfl, by decide,
    serialize_cancel_order_params_expansion.1 sampleOrderId16 rfl (by decide)⟩

/-- C10 (counterexample): a raw Python bytes order id has no `value`
attribute, so a 7-byte raw order id falls into the string branch, where
`str()` produces the 10-character repr `b'AAAAAAA'`, and the encoder
raises `ValueError` instead of returning the input unchanged. -/
theorem cancel_raw_bytes_error :
    serialize_cancel_order_params (.raw sevenBytes) = .error "Invalid OrderId length" := by
  rfl

/-- C10 (amended): the encoder performs no length validation on the
`value` bytes of a wrapped order id — every value whose length is not
exactly 16 is returned completely unchanged, so the encoder does not
guarantee a 32-byte output; a raw Python bytes order id instead takes
the string-parsing branch and raises `ValueError` when its repr is not
a 32-character hex string. -/
theorem cancel_no_length_validation :
    (∀ b : List Nat, b.length ≠ 16 →
      serialize_cancel_order_params (.withValue b) = .ok b) ∧
    serialize_cancel_order_params (.raw sevenBytes) =
      .error "Invalid OrderId length" := by
  constructor
  · intro b hlen
    simp [serialize_cancel_order_params, cancelFromBytes, hlen]
  · rfl

/-- C10 (witness for the amended theorem): a concrete 7-byte wrapped
value is emitted verbatim. -/
theorem cancel_no_length_validation_witness :
    sevenBytes.length ≠ 16 ∧
    serialize_cancel_order_params (.withValue sevenBytes) = .ok sevenBytes :=
  ⟨by decide, cancel_no_length_validation.1 sevenBytes (by decide)⟩

/-! ## UpdateMarketParams theorems -/

theorem serOptNum_eq (width : Nat) (o : Option Nat)
    (h : ∀ v, o = some v → v < 256 ^ width) :
    serOptNum width o = some (optNumLayout width o) := by
  cases o with
  | none => rfl
  | some v => simp [serOptNum, optNumLayout, packLE_of_lt _ _ (h v rfl)]

theorem marketState_to_rust_index_lt (s : MarketState) :
    s.to_rust_index < 256 ^ 4 := by
  cases s <;> decide

/-- C6: the five optional fields are emitted in the fixed order
min-order-size (u64), maker-fee (u16), taker-fee (u16),
allow-market-orders (bool), state (u32), each preceded by a one-byte
presence flag (0 = absent and nothing further, 1 = present followed by
the little-endian value); a record with only `maker_fee_bps = 15` set
encodes to exactly the 7 bytes `00 01 0F 00 00 00 00`. -/
theorem serialize_update_market_params_layout :
    (∀ p : UpdateMarketParams,
      (∀ v, p.min_order_size = some v → v < 256 ^ 8) →
      (∀ v, p.maker_fee_bps = some v → v < 256 ^ 2) →
      (∀ v, p.taker_fee_bps = some v → v < 256 ^ 2) →
      serialize_update_market_params p = some (
        optNumLayout 8 p.min_order_size ++
        optNumLayout 2 p.maker_fee_bps ++
        optNumLayout 2 p.taker_fee_bps ++
        serOptBool p.allow_market_orders ++
        optNumLayout 4 (p.state.map MarketState.to_rust_index))) ∧
    serialize_update_market_params goldenUpdateMarket = some goldenUpdateMarketBytes := by
  refine ⟨?_, rfl⟩
  intro p h1 h2 h3
  have h5 : ∀ v, p.state.map MarketState.to_rust_index = some v → v < 256 ^ 4 := by
    intro v hv
    cases hs : p.state with
    | none => rw [hs] at hv; cases hv
    | some s =>
      rw [hs] at hv
      simp only [Option.map_some', Option.some.injEq] at hv
      rw [← hv]
      exact marketState_to_rust_index_lt s
  simp only [serialize_update_market_params, serOptNum_eq 8 _ h1, serOptNum_eq 2 _ h2,
    serOptNum_eq 2 _ h3, serOptNum_eq 4 _ h5, Option.some_bind]
  rfl

/-- C6 (witness): the layout theorem applies to the golden record. -/
theorem serialize_update_market_params_witness :
    serialize_update_market_params goldenUpdateMarket = some (
      optNumLayout 8 goldenUpdateMarket.min_order_size ++
      optNumLayout 2 goldenUpdateMarket.maker_fee_bps ++
      optNumLayout 2 goldenUpdateMarket.taker_fee_bps ++
      serOptBool goldenUpdateMarket.allow_market_orders ++
      optNumLayout 4 (goldenUpdateMarket.state.map MarketState.to_rust_index)) :=
  serialize_update_market_params_layout.1 goldenUpdateMarket
    (fun v h => by cases h) (fun v h => by injection h with h; omega)
    (fun v h => by cases h)

/-! ## TransactionBuilder theorems -/

theorem foldl_add_action (acts : List Action) (b : TransactionBuilder) :
    acts.foldl TransactionBuilder.add_action b =
      { b with actions := b.actions ++ acts } := by
  induction acts generalizing b with
  | nil => simp
  | cons a acts ih =>
    rw [List.foldl_cons, ih]
    simp [TransactionBuilder.add_action]

/-- C9: sealing fails exactly when the sender is unset or the action
list is empty; a successful seal carries the given sender, the given
expiration, and the actions exactly in the order they were appended. -/
theorem transaction_builder_build_spec :
    (∀ b : TransactionBuilder,
      (∃ tx, b.build = .ok tx) ↔ (b.sender ≠ none ∧ b.actions ≠ [])) ∧
    (∀ (b : TransactionBuilder) (tx : Transaction), b.build = .ok tx →
      b.sender = some tx.sender ∧ tx.expiration = b.expiration ∧
      tx.actions = b.actions) ∧
    (∀ (s : List Nat) (e : Nat) (acts : List Action), acts ≠ [] →
      ∃ tx,
        (acts.foldl TransactionBuilder.add_action
          ((TransactionBuilder.new.setSender s).setExpiration e)).build = .ok tx ∧
        tx.sender = s ∧ tx.expiration = e ∧ tx.actions = acts) := by
  refine ⟨?_, ?_, ?_⟩
  · intro b
    constructor
    · rintro ⟨tx, htx⟩
      cases hs : b.sender with
      | none => simp [TransactionBuilder.build, hs] at htx
      | some s =>
        simp only [TransactionBuilder.build, hs] at htx
        split at htx
        · simp at htx
        · exact ⟨by simp [hs], by assumption⟩
    · rintro ⟨hs, ha⟩
      cases hsv : b.sender with
      | none => exact absurd hsv hs
      | some s =>
        refine ⟨Transaction.mk s b.nonce b.gas_budget b.gas_price b.expiration
          b.actions, ?_⟩
        simp [TransactionBuilder.build, hsv, ha]
  · intro b tx htx
    cases hs : b.sender with
    | none => simp [TransactionBuilder.build, hs] at htx
    | some s =>
      simp only [TransactionBuilder.build, hs] at htx
      split at htx
      · simp at htx
      · injection htx with htx
        subst htx
        exact ⟨rfl, rfl, rfl⟩
  · intro s e acts hne
    rw [foldl_add_action]
    refine ⟨Transaction.mk s 0 1000000 1 e ([] ++ acts), ?_, rfl, rfl, by simp⟩
    simp [TransactionBuilder.build, TransactionBuilder.new,
      TransactionBuilder.setSender, TransactionBuilder.setExpiration, hne]

/-! ## TokenCreatedEvent theorems -/

/-- C7: the decoder returns a record exactly when every field can be
fully read in left-to-right order — the payload is at least as long as
the full layout requires (153 fixed bytes plus the two length-prefixed
string bodies) and the two strings decode as UTF-8; and every
truncated-payload error (which carries the field being read) occurs only
on payloads genuinely shorter than the layout requires, so a truncated
payload never yields a record with default or zero fields. -/
theorem deserialize_token_created_event_spec :
    ∀ data : List Nat,
      ((∃ r, deserialize_token_created_event data = .ok r) ↔
        (tceRequiredLen data ≤ data.length ∧
         utf8Valid (tceNameBytes data) = true ∧
         utf8Valid (tceSymbolBytes data) = true)) ∧
      (∀ f, deserialize_token_created_event data = .error (.truncated f) →
        data.length < tceRequiredLen data) := by
  intro data
  constructor
  · constructor
    · rintro ⟨r, hr⟩
      unfold deserialize_token_created_event at hr
      by_cases h1 : data.length < 16
      · rw [if_pos h1] at hr; exact Except.noConfusion hr
      rw [if_neg h1] at hr
      by_cases h2 : data.length < 48
      · rw [if_pos h2] at hr; exact Except.noConfusion hr
      rw [if_neg h2] at hr
      by_cases h3 : data.length < 56
      · rw [if_pos h3] at hr; exact Except.noConfusion hr
      rw [if_neg h3] at hr
      by_cases h4 : data.length < 56 + tceNameLen data
      · rw [if_pos h4] at hr; exact Except.noConfusion hr
      rw [if_neg h4] at hr
      by_cases h5 : utf8Valid (tceNameBytes data) = false
      · rw [if_pos h5] at hr; exact Except.noConfusion hr
      rw [if_neg h5] at hr
      by_cases h6 : data.length < 64 + tceNameLen data
      · rw [if_pos h6] at hr; exact Except.noConfusion hr
      rw [if_neg h6] at hr
      by_cases h7 : data.length < 64 + tceNameLen data + tceSymbolLen data
      · rw [if_pos h7] at hr; exact Except.noConfusion hr
      rw [if_neg h7] at hr
      by_cases h8 : utf8Valid (tceSymbolBytes data) = false
      · rw [if_pos h8] at hr; exact Except.noConfusion hr
      rw [if_neg h8] at hr
      by_cases h9 : data.length < 72 + tceNameLen data + tceSymbolLen data
      · rw [if_pos h9] at hr; exact Except.noConfusion hr
      rw [if_neg h9] at hr
      by_cases h10 : data.length < 104 + tceNameLen data + tceSymbolLen data
      · rw [if_pos h10] at hr; exact Except.noConfusion hr
      rw [if_neg h10] at hr
      by_cases h11 : data.length < 105 + tceNameLen data + tceSymbolLen data
      · rw [if_pos h11] at hr; exact Except.noConfusion hr
      rw [if_neg h11] at hr
      by_cases h12 : data.length < 137 + tceNameLen data + tceSymbolLen data
      · rw [if_pos h12] at hr; exact Except.noConfusion hr
      rw [if_neg h12] at hr
      by_cases h13 : data.length < 153 + tceNameLen data + tceSymbolLen data
      · rw [if_pos h13] at hr; exact Except.noConfusion hr
      refine ⟨by unfold tceRequiredLen; omega, ?_, ?_⟩
      · simpa using h5
      · simpa using h8
    · rintro ⟨hlen, hn, hs⟩
      unfold tceRequiredLen at hlen
      have n1 : ¬ data.length < 16 := by omega
      have n2 : ¬ data.length < 48 := by omega
      have n3 : ¬ data.length < 56 := by omega
      have n4 : ¬ data.length < 56 + tceNameLen data := by omega
      have n5 : ¬ utf8Valid (tceNameBytes data) = false := by simp [hn]
      have n6 : ¬ data.length < 64 + tceNameLen data := by omega
      have n7 : ¬ data.length < 64 + tceNameLen data + tceSymbolLen data := by omega
      have n8 : ¬ utf8Valid (tceSymbolBytes data) = false := by simp [hs]
      have n9 : ¬ data.length < 72 + tceNameLen data + tceSymbolLen data := by omega
      have n10 : ¬ data.length < 104 + tceNameLen data + tceSymbolLen data := by omega
      have n11 : ¬ data.length < 105 + tceNameLen data + tceSymbolLen data := by omega
      have n12 : ¬ data.length < 137 + tceNameLen data + tceSymbolLen data := by omega
      have n13 : ¬ data.length < 153 + tceNameLen data + tceSymbolLen data := by omega
      exact ⟨_, by
        unfold deserialize_token_created_event
        rw [if_neg n1, if_neg n2, if_neg n3, if_neg n4, if_neg n5, if_neg n6,
          if_neg n7, if_neg n8, if_neg n9, if_neg n10, if_neg n11, if_neg n12,
          if_neg n13]⟩
  · intro f hf
    unfold deserialize_token_created_event at hf
    by_cases h1 : data.length < 16
    · unfold tceRequiredLen; omega
    rw [if_neg h1] at hf
    by_cases h2 : data.length < 48
    · unfold tceRequiredLen; omega
    rw [if_neg h2] at hf
    by_cases h3 : data.length < 56
    · unfold tceRequiredLen; omega
    rw [if_neg h3] at hf
    by_cases h4 : data.length < 56 + tceNameLen data
    · unfold tceRequiredLen; omega
    rw [if_neg h4] at hf
    by_cases h5 : utf8Valid (tceNameBytes data) = false
    · rw [if_pos h5] at hf
      injection hf with hf
      exact absurd hf (by simp)
    rw [if_neg h5] at hf
    by_cases h6 : data.length < 64 + tceNameLen data
    · unfold tceRequiredLen; omega
    rw [if_neg h6] at hf
    by_cases h7 : data.length < 64 + tceNameLen data + tceSymbolLen data
    · unfold tceRequiredLen; omega
    rw [if_neg h7] at hf
    by_cases h8 : utf8Valid (tceSymbolBytes data) = false
    · rw [if_pos h8] at hf
      injection hf with hf
      exact absurd hf (by simp)
    rw [if_neg h8] at hf
    by_cases h9 : data.length < 72 + tceNameLen data + tceSymbolLen data
    · unfold tceRequiredLen; omega
    rw [if_neg h9] at hf
    by_cases h10 : data.length < 104 + tceNameLen data + tceSymbolLen data
    · unfold tceRequiredLen; omega
    rw [if_neg h10] at hf
    by_cases h11 : data.length < 105 + tceNameLen data + tceSymbolLen data
    · unfold tceRequiredLen; omega
    rw [if_neg h11] at hf
    by_cases h12 : data.length < 137 + tceNameLen data + tceSymbolLen data
    · unfold tceRequiredLen; omega
    rw [if_neg h12] at hf
    by_cases h13 : data.length < 153 + tceNameLen data + tceSymbolLen data
    · unfold tceRequiredLen; omega
    rw [if_neg h13] at hf
    exact Except.noConfusion hf

set_option maxRecDepth 8192 in
/-- C7 (witness): the empty payload errors on the very first field, and
a concrete 153-byte payload with empty name and symbol decodes to a
record. -/
theorem deserialize_token_created_event_witness :
    deserialize_token_created_event [] = .error (.truncated .token_id) ∧
    ([] : List Nat).length < tceRequiredLen [] ∧
    deserialize_token_created_event minimalTokenEventPayload =
      .ok { token_id := List.replicate 16 0,
            token_address := List.replicate 32 0,
            name := [], symbol := [], total_supply := 0,
            creator := List.replicate 32 0, mintable := false,
            toAddr := List.replicate 32 0,
            balance_id := List.replicate 16 0 } :=
  ⟨rfl, (deserialize_token_created_event_spec []).2 .token_id rfl, rfl⟩

/-- C9 (witness): a builder with a concrete sender, expiration and one
appended action seals successfully with exactly those fields. -/
theorem transaction_builder_build_witness :
    [sampleAction] ≠ ([] : List Action) ∧
    ∃ tx,
      ([sampleAction].foldl TransactionBuilder.add_action
        ((TransactionBuilder.new.setSender sampleSender).setExpiration 7)).build =
          .ok tx ∧
      tx.sender = sampleSender ∧ tx.expiration = 7 ∧ tx.actions = [sampleAction] :=
  ⟨by simp, transaction_builder_build_spec.2.2 sampleSender 7 [sampleAction] (by simp)⟩

/-! ## Address derivation theorems -/

theorem sha512Compress_length (hv block : List Nat) :
    (sha512Compress hv block).length = 8 := rfl

theorem foldl_sha512Compress_length (blocks : List (List Nat)) (hv : List Nat)
    (h : hv.length = 8) : (blocks.foldl sha512Compress hv).length = 8 := by
  induction blocks generalizing hv with
  | nil => exact h
  | cons b bs ih => exact ih _ (sha512Compress_length hv b)

theorem flatten_beBytes_length (l : List Nat) :
    ((l.map (beBytes 8)).flatten).length = 8 * l.length := by
  induction l with
  | nil => rfl
  | cons x xs ih =>
    simp only [List.map_cons, List.flatten_cons, List.length_append, ih,
      List.length_cons, beBytes, List.length_reverse, leBytes_length]
    ring

theorem sha512_length (msg : List Nat) : (sha512 msg).length = 64 := by
  unfold sha512
  rw [flatten_beBytes_length, foldl_sha512Compress_length _ sha512H0 rfl]

set_option maxRecDepth 8192 in
/-- C8: the derived address is exactly the first 32 bytes of the 64-byte
SHA-512 digest of the raw public key bytes — a 512-bit hash truncated to
32 bytes, not a 256-bit hash (the digest really is SHA-512: at the
all-zero 32-byte public key it equals the published SHA-512 value, so
the output is always 32 bytes long). -/
theorem compute_address_sha512 :
    (∀ pk : List Nat, compute_address pk = (sha512 pk).take 32) ∧
    (∀ pk : List Nat, (sha512 pk).length = 64) ∧
    (∀ pk : List Nat, (compute_address pk).length = 32) ∧
    compute_address zeroPublicKey = zeroPublicKeyAddress := by
  refine ⟨fun pk => rfl, sha512_length, ?_, by decide⟩
  intro pk
  unfold compute_address
  rw [List.length_take, sha512_length]
  omega

end LightPool
